import Mathlib

/-!
# Verification of the db-schema-explorer catalog reader and DDL synthesis pipeline

This file gives a shallow embedding of the schema-introspection pipeline:
the Postgres catalog reader (`fetchSchemaData` with its seven fixed queries,
from `src/lib/pg-schema.ts`), the DDL synthesizer (`buildSchemaDdl`, modelled
from the specification since only its caller is in the sources), the schema
cache (`readSchemaCache` / `writeSchemaCache` from `src/lib/cache.ts`),
the sync command flow (`sync-schema.tsx`) and the exclusion-rule filter
(`src/lib/exclusion.ts`).  Theorems at the end settle the behavioural claims
about these components.
-/

set_option maxHeartbeats 1000000

namespace DbSchemaExplorer
/-! ## Lexicographic sort keys

SQL `ORDER BY` clauses and the synthesizer's deterministic grouping both sort
row lists by a lexicographic key made of string and numeric columns.  `Key`
is such a composite key; `Key.le` is lexicographic comparison. -/

/-- Strict lexicographic comparison of character lists.  Core `String`
comparison is defined by well-founded recursion and does not reduce inside
the kernel, so the embedding compares the underlying character lists with
this structurally recursive function instead. -/
def charListLt : List Char → List Char → Bool
  | [], [] => false
  | [], _ :: _ => true
  | _ :: _, [] => false
  | a :: as, b :: bs => if a < b then true else if b < a then false else charListLt as bs

inductive Key where
  | nil : Key
  | str : List Char → Key → Key
  | nat : Nat → Key → Key
deriving DecidableEq

def Key.le : Key → Key → Bool
  | .nil, _ => true
  | .str _ _, .nil => false
  | .nat _ _, .nil => false
  | .str a ra, .str b rb =>
      if charListLt a b then true else if charListLt b a then false else Key.le ra rb
  | .nat a ra, .nat b rb => if a < b then true else if b < a then false else Key.le ra rb
  | .str _ _, .nat _ _ => true
  | .nat _ _, .str _ _ => false

/-- The row ordering induced by a key function. -/
def keyLe {α : Type} (k : α → Key) (a b : α) : Prop :=
  Key.le (k a) (k b) = true

instance {α : Type} (k : α → Key) : DecidableRel (keyLe k) :=
  fun a b => instDecidableEqBool (Key.le (k a) (k b)) true

/-- Sorting a row list by a composite key: the Lean embedding of a SQL
`ORDER BY`, and of the synthesizer's explicit per-group sorting. -/
def rowSort {α : Type} (k : α → Key) (l : List α) : List α :=
  List.insertionSort (keyLe k) l

/-! ## Catalog row types (from `src/lib/pg-schema.ts`) -/
structure TableRow where
  table_schema : String
  table_name : String
  table_type : String
deriving DecidableEq

structure ColumnRow where
  table_schema : String
  table_name : String
  column_name : String
  ordinal_position : Nat
  data_type : String
  udt_schema : String
  udt_name : String
  is_nullable : String
  column_default : Option String
  character_maximum_length : Option Nat
  numeric_precision : Option Nat
  numeric_scale : Option Nat
deriving DecidableEq

structure EnumTypeRow where
  nspname : String
  typname : String
  enumlabel : String
  enumsortorder : Nat
deriving DecidableEq

structure PrimaryKeyRow where
  table_schema : String
  table_name : String
  constraint_name : String
  column_name : String
  ordinal_position : Nat
deriving DecidableEq

structure UniqueRow where
  table_schema : String
  table_name : String
  constraint_name : String
  column_name : String
  ordinal_position : Nat
deriving DecidableEq

structure ForeignKeyRow where
  table_schema : String
  table_name : String
  column_name : String
  ordinal_position : Nat
  constraint_name : String
  ref_table_schema : String
  ref_table_name : String
  ref_column_name : String
deriving DecidableEq

structure IndexRow where
  schemaname : String
  tablename : String
  indexname : String
  indexdef : String
deriving DecidableEq

structure SchemaData where
  tables : List TableRow
  columns : List ColumnRow
  enums : List EnumTypeRow
  primaryKeys : List PrimaryKeyRow
  uniques : List UniqueRow
  foreignKeys : List ForeignKeyRow
  indexes : List IndexRow
deriving DecidableEq

/-! ## The seven catalog queries

A `Db` holds, for each of the seven queries of `pg-schema.ts`, the projected
row set the query draws from (the `FROM`/`JOIN` product restricted to the
selected columns), in an arbitrary order.  Each `run*Query` function applies
the query's `WHERE` filter and its `ORDER BY` clause.  The sort is stable, so
rows tied on the `ORDER BY` key keep their arbitrary source order — exactly
the freedom the SQL semantics leaves the server. -/
structure Db where
  tablesSrc : List TableRow
  columnsSrc : List ColumnRow
  enumsSrc : List EnumTypeRow
  pksSrc : List PrimaryKeyRow
  uniquesSrc : List UniqueRow
  fksSrc : List ForeignKeyRow
  indexesSrc : List IndexRow

/-- The schema exclusion in every query:
`NOT IN ('pg_catalog', 'information_schema')`. -/
def isSystemSchema (s : String) : Bool :=
  s == "pg_catalog" || s == "information_schema"

/-- `ORDER BY table_schema, table_name` of `TABLES_QUERY`. -/
def tableQueryKey (r : TableRow) : Key :=
  .str r.table_schema.data (.str r.table_name.data .nil)

/-- `ORDER BY table_schema, table_name, ordinal_position` of `COLUMNS_QUERY`. -/
def columnQueryKey (c : ColumnRow) : Key :=
  .str c.table_schema.data (.str c.table_name.data (.nat c.ordinal_position .nil))

/-- `ORDER BY n.nspname, t.typname, e.enumsortorder` of `ENUMS_QUERY`. -/
def enumQueryKey (e : EnumTypeRow) : Key :=
  .str e.nspname.data (.str e.typname.data (.nat e.enumsortorder .nil))

/-- `ORDER BY tc.table_schema, tc.table_name, kcu.ordinal_position` of
`PRIMARY_KEYS_QUERY`. -/
def pkQueryKey (p : PrimaryKeyRow) : Key :=
  .str p.table_schema.data (.str p.table_name.data (.nat p.ordinal_position .nil))

/-- `ORDER BY tc.table_schema, tc.table_name, tc.constraint_name,
kcu.ordinal_position` of `UNIQUES_QUERY`. -/
def uniqueQueryKey (u : UniqueRow) : Key :=
  .str u.table_schema.data (.str u.table_name.data (.str u.constraint_name.data (.nat u.ordinal_position .nil)))

/-- `ORDER BY fk.table_schema, fk.table_name, rc.constraint_name,
fk.ordinal_position` of `FOREIGN_KEYS_QUERY`. -/
def fkQueryKey (f : ForeignKeyRow) : Key :=
  .str f.table_schema.data (.str f.table_name.data (.str f.constraint_name.data (.nat f.ordinal_position .nil)))

/-- `ORDER BY schemaname, tablename` of `INDEXES_QUERY` — note: no third
sort column. -/
def indexQueryKey (i : IndexRow) : Key :=
  .str i.schemaname.data (.str i.tablename.data .nil)

def runTablesQuery (db : Db) : List TableRow :=
  rowSort tableQueryKey (db.tablesSrc.filter fun r =>
    !isSystemSchema r.table_schema && (r.table_type == "BASE TABLE" || r.table_type == "VIEW"))

def runColumnsQuery (db : Db) : List ColumnRow :=
  rowSort columnQueryKey (db.columnsSrc.filter fun c => !isSystemSchema c.table_schema)

def runEnumsQuery (db : Db) : List EnumTypeRow :=
  rowSort enumQueryKey (db.enumsSrc.filter fun e => !isSystemSchema e.nspname)

def runPrimaryKeysQuery (db : Db) : List PrimaryKeyRow :=
  rowSort pkQueryKey (db.pksSrc.filter fun p => !isSystemSchema p.table_schema)

def runUniquesQuery (db : Db) : List UniqueRow :=
  rowSort uniqueQueryKey (db.uniquesSrc.filter fun u => !isSystemSchema u.table_schema)

def runForeignKeysQuery (db : Db) : List ForeignKeyRow :=
  rowSort fkQueryKey (db.fksSrc.filter fun f => !isSystemSchema f.table_schema)

def runIndexesQuery (db : Db) : List IndexRow :=
  rowSort indexQueryKey (db.indexesSrc.filter fun i => !isSystemSchema i.schemaname)

/-! ## `fetchSchemaData` (pg-schema.ts lines 152-172)

A `Client` is a database together with a possible failure for each of the
seven `client.query` calls.  `fetchSchemaData` awaits `Promise.all` of the
seven queries: it resolves with the full snapshot only when every query
succeeds, and rejects with a single error otherwise. -/
structure Client where
  db : Db
  tablesFail : Option String
  columnsFail : Option String
  enumsFail : Option String
  pksFail : Option String
  uniquesFail : Option String
  fksFail : Option String
  indexesFail : Option String

def queryResult {α : Type} (failure : Option String) (rows : List α) :
    Except String (List α) :=
  match failure with
  | some e => .error e
  | none => .ok rows

def fetchSchemaData (c : Client) : Except String SchemaData := do
  let tables ← queryResult c.tablesFail (runTablesQuery c.db)
  let columns ← queryResult c.columnsFail (runColumnsQuery c.db)
  let enums ← queryResult c.enumsFail (runEnumsQuery c.db)
  let primaryKeys ← queryResult c.pksFail (runPrimaryKeysQuery c.db)
  let uniques ← queryResult c.uniquesFail (runUniquesQuery c.db)
  let foreignKeys ← queryResult c.fksFail (runForeignKeysQuery c.db)
  let indexes ← queryResult c.indexesFail (runIndexesQuery c.db)
  return { tables, columns, enums, primaryKeys, uniques, foreignKeys, indexes }

/-- All seven `client.query` calls succeed. -/
def noQueryFailure (c : Client) : Prop :=
  c.tablesFail = none ∧ c.columnsFail = none ∧ c.enumsFail = none ∧
  c.pksFail = none ∧ c.uniquesFail = none ∧ c.fksFail = none ∧
  c.indexesFail = none

instance (c : Client) : Decidable (noQueryFailure c) := by
  unfold noQueryFailure; infer_instance

/-- The snapshot assembled from all seven successful query results. -/
def fullSnapshot (db : Db) : SchemaData :=
  ⟨runTablesQuery db, runColumnsQuery db, runEnumsQuery db,
   runPrimaryKeysQuery db, runUniquesQuery db, runForeignKeysQuery db,
   runIndexesQuery db⟩

/-! ## The DDL synthesizer

The repository imports `buildSchemaDdl` from `src/lib/ddl-builder.ts`, whose
source is not part of the source tree — only its caller (`sync-schema.tsx`)
and the specification describe it.  The definitions below are therefore
modelled from the spec, section 4.2: every grouping and ordering decision is
realised by an explicit total-key sort so that the output is a deterministic
function of the input row multisets, as the spec's determinism requirement
demands. -/

/-- The qualified relation name `<schema>.<name>` keying both output maps. -/
def qualName (s n : String) : String := s ++ "." ++ n

def optNat : Option Nat → Nat
  | none => 0
  | some n => n + 1

def optTag : Option String → Nat
  | none => 0
  | some _ => 1

def optStr : Option String → String
  | none => ""
  | some s => s

/-- Total key on relation rows: schema, name, then the remaining field. -/
def tableFullKey (r : TableRow) : Key :=
  .str r.table_schema.data (.str r.table_name.data (.str r.table_type.data .nil))

/-- Total key on column rows: schema, relation, ordinal position (the
authoritative column order), then every remaining field as tie-breaker. -/
def columnFullKey (c : ColumnRow) : Key :=
  .str c.table_schema.data (.str c.table_name.data (.nat c.ordinal_position
    (.str c.column_name.data (.str c.data_type.data (.str c.udt_schema.data
    (.str c.udt_name.data (.str c.is_nullable.data (.nat (optTag c.column_default)
    (.str (optStr c.column_default).data (.nat (optNat c.character_maximum_length)
    (.nat (optNat c.numeric_precision) (.nat (optNat c.numeric_scale) .nil))))))))))))

/-- Total key on enum label rows: type schema, type name, sort order, label. -/
def enumFullKey (e : EnumTypeRow) : Key :=
  .str e.nspname.data (.str e.typname.data (.nat e.enumsortorder
    (.str e.enumlabel.data .nil)))

/-- Total key on primary key rows: schema, relation, constraint, ordinal. -/
def pkFullKey (p : PrimaryKeyRow) : Key :=
  .str p.table_schema.data (.str p.table_name.data (.str p.constraint_name.data
    (.nat p.ordinal_position (.str p.column_name.data .nil))))

/-- Total key on unique constraint rows: schema, relation, constraint, ordinal. -/
def uniqueFullKey (u : UniqueRow) : Key :=
  .str u.table_schema.data (.str u.table_name.data (.str u.constraint_name.data
    (.nat u.ordinal_position (.str u.column_name.data .nil))))

/-- Total key on foreign key rows: schema, relation, constraint, ordinal,
then the column and referenced-side fields. -/
def fkFullKey (f : ForeignKeyRow) : Key :=
  .str f.table_schema.data (.str f.table_name.data (.str f.constraint_name.data
    (.nat f.ordinal_position (.str f.column_name.data (.str f.ref_table_schema.data
    (.str f.ref_table_name.data (.str f.ref_column_name.data .nil)))))))

/-- Total key on index rows: schema, relation, index name, definition text. -/
def indexFullKey (i : IndexRow) : Key :=
  .str i.schemaname.data (.str i.tablename.data (.str i.indexname.data
    (.str i.indexdef.data .nil)))

/-- Modelled from the spec: the synthesizer sorts each of the seven row
collections by a fully specified total key before any grouping, so that the
result depends only on the row multisets, never on arrival order
(spec section 4.2, determinism requirement). -/
def canonicalize (d : SchemaData) : SchemaData :=
  ⟨rowSort tableFullKey d.tables, rowSort columnFullKey d.columns,
   rowSort enumFullKey d.enums, rowSort pkFullKey d.primaryKeys,
   rowSort uniqueFullKey d.uniques, rowSort fkFullKey d.foreignKeys,
   rowSort indexFullKey d.indexes⟩

/-- A single-quote character, used to quote enum labels. -/
def sq : String := String.singleton (Char.ofNat 39)

/-- Join a list of fragments with a separator (structural recursion, unlike
core `String.intercalate`, so it reduces in the kernel). -/
def joinSep (sep : String) : List String → String
  | [] => ""
  | [x] => x
  | x :: y :: xs => x ++ sep ++ joinSep sep (y :: xs)

/-- Distinct values of a string list, keeping first occurrences in order
(structural recursion over the list, carrying the names already seen). -/
def distinctStringsAux (seen : List String) : List String → List String
  | [] => []
  | x :: xs =>
    if seen.contains x then distinctStringsAux seen xs
    else x :: distinctStringsAux (x :: seen) xs

def distinctStrings (l : List String) : List String := distinctStringsAux [] l

/-- Modelled from the spec: step 1 — the ordered label list of the enum type
`(schema, typ)`, sorted by enum sort order (the columns are drawn from the
canonicalized snapshot, so the filter preserves that order). -/
def enumLabels (d : SchemaData) (schema typ : String) : List String :=
  (d.enums.filter fun e => e.nspname == schema && e.typname == typ).map (·.enumlabel)

def hasEnum (d : SchemaData) (schema typ : String) : Bool :=
  !(d.enums.filter fun e => e.nspname == schema && e.typname == typ).isEmpty

/-- Modelled from the spec: enum column types render as the quoted labels in
sort order, annotated with the enum type name. -/
def enumTypeText (typ : String) (labels : List String) : String :=
  joinSep " | " (labels.map fun l => sq ++ l ++ sq) ++ " (enum " ++ typ ++ ")"

def startsWithUnderscore (s : String) : Bool :=
  match s.data with
  | c :: _ => c == '_'
  | [] => false

def dropFirstChar (s : String) : String := String.mk s.data.tail

/-- Modelled from the spec: step 3 — scalar type text: enum labels when the
user-defined type matches a known enum, otherwise the declared type name
augmented with character length, or numeric precision/scale (scale only when
precision is present). -/
def scalarTypeText (d : SchemaData) (c : ColumnRow) : String :=
  if hasEnum d c.udt_schema c.udt_name then
    enumTypeText c.udt_name (enumLabels d c.udt_schema c.udt_name)
  else
    c.data_type ++
      (match c.character_maximum_length with
       | some n => "(" ++ toString n ++ ")"
       | none =>
         match c.numeric_precision with
         | some p =>
           "(" ++ toString p ++
             (match c.numeric_scale with
              | some s => ", " ++ toString s
              | none => "") ++ ")"
         | none => "")

/-- Modelled from the spec: step 3 — array types (user-defined type name
prefixed with the array marker) render as the base type followed by
square brackets. -/
def columnTypeText (d : SchemaData) (c : ColumnRow) : String :=
  if startsWithUnderscore c.udt_name then
    (if hasEnum d c.udt_schema (dropFirstChar c.udt_name) then
       enumTypeText (dropFirstChar c.udt_name)
         (enumLabels d c.udt_schema (dropFirstChar c.udt_name))
     else dropFirstChar c.udt_name) ++ "[]"
  else scalarTypeText d c

/-- Modelled from the spec: step 3 — one column definition: name, type text,
a not-null marker when the nullable flag is off, and the verbatim default. -/
def columnDefText (d : SchemaData) (c : ColumnRow) : String :=
  c.column_name ++ " " ++ columnTypeText d c ++
    (if c.is_nullable == "NO" then " not null" else "") ++
    (match c.column_default with
     | some e => " default " ++ e
     | none => "")

/-- Modelled from the spec: step 2 — the columns of relation `r`, drawn in
order from the canonicalized snapshot (hence sorted by ordinal position). -/
def relColumns (d : SchemaData) (r : TableRow) : List ColumnRow :=
  d.columns.filter fun c =>
    c.table_schema == r.table_schema && c.table_name == r.table_name

def relPkRows (d : SchemaData) (r : TableRow) : List PrimaryKeyRow :=
  d.primaryKeys.filter fun p =>
    p.table_schema == r.table_schema && p.table_name == r.table_name

def relUniqueRows (d : SchemaData) (r : TableRow) : List UniqueRow :=
  d.uniques.filter fun u =>
    u.table_schema == r.table_schema && u.table_name == r.table_name

def relFkRows (d : SchemaData) (r : TableRow) : List ForeignKeyRow :=
  d.foreignKeys.filter fun f =>
    f.table_schema == r.table_schema && f.table_name == r.table_name

def relIndexRows (d : SchemaData) (r : TableRow) : List IndexRow :=
  d.indexes.filter fun i =>
    i.schemaname == r.table_schema && i.tablename == r.table_name

/-- Modelled from the spec: step 4 — primary key groups by constraint name,
members in ordinal order, one named clause per group. -/
def pkClauseTexts (d : SchemaData) (r : TableRow) : List String :=
  (distinctStrings ((relPkRows d r).map (·.constraint_name))).map fun n =>
    "constraint " ++ n ++ " primary key (" ++
      joinSep ", "
        (((relPkRows d r).filter fun p => p.constraint_name == n).map (·.column_name)) ++
      ")"

/-- Modelled from the spec: step 5 — unique constraint groups. -/
def uniqueClauseTexts (d : SchemaData) (r : TableRow) : List String :=
  (distinctStrings ((relUniqueRows d r).map (·.constraint_name))).map fun n =>
    "constraint " ++ n ++ " unique (" ++
      joinSep ", "
        (((relUniqueRows d r).filter fun u => u.constraint_name == n).map (·.column_name)) ++
      ")"

/-- Modelled from the spec: step 6 — foreign key groups: local columns in
ordinal order paired positionally with referenced columns; the referenced
relation is schema-qualified only when its schema differs from the local
relation's schema. -/
def fkClauseTexts (d : SchemaData) (r : TableRow) : List String :=
  (distinctStrings ((relFkRows d r).map (·.constraint_name))).filterMap fun n =>
    match (relFkRows d r).filter fun f => f.constraint_name == n with
    | [] => none
    | m :: ms =>
      some ("constraint " ++ n ++ " foreign key (" ++
        joinSep ", " ((m :: ms).map (·.column_name)) ++ ") references " ++
        (if m.ref_table_schema == r.table_schema then m.ref_table_name
         else qualName m.ref_table_schema m.ref_table_name) ++
        " (" ++ joinSep ", " ((m :: ms).map (·.ref_column_name)) ++ ")")

/-- Modelled from the spec: step 8 — the relation's index definitions,
appended verbatim as trailing statements. -/
def indexSuffix (d : SchemaData) (r : TableRow) : String :=
  match (relIndexRows d r).map (·.indexdef) with
  | [] => ""
  | t :: ts => "\n\n" ++ joinSep "\n" (t :: ts)

/-- Modelled from the spec: step 7 — assemble one relation's DDL text: for a
base table a creation header, the ordered column definitions and the
constraint clauses; for a view a reduced definition carrying only the column
list; the relation's index definitions follow in both cases. -/
def relationDdl (d : SchemaData) (r : TableRow) : String :=
  (if r.table_type == "BASE TABLE" then
    "create table " ++ qualName r.table_schema r.table_name ++ " (\n  " ++
      joinSep ",\n  "
        (((relColumns d r).map (columnDefText d)) ++ pkClauseTexts d r ++
          uniqueClauseTexts d r ++ fkClauseTexts d r) ++ "\n)"
   else
    "create view " ++ qualName r.table_schema r.table_name ++ " (\n  " ++
      joinSep ",\n  " ((relColumns d r).map (columnDefText d)) ++ "\n)") ++
  indexSuffix d r

/-- Modelled from the spec: step 9 — "table" when the catalog kind is a base
table, "view" otherwise. -/
def relationKind (r : TableRow) : String :=
  if r.table_type == "BASE TABLE" then "table" else "view"

/-- Modelled from the spec: `buildSchemaDdl` — the pure DDL synthesizer.
Returns the DDL mapping and the kind mapping, both keyed by qualified
relation name, as association lists in canonical relation order. -/
def buildSchemaDdl (data : SchemaData) : List (String × String) × List (String × String) :=
  ((canonicalize data).tables.map fun r =>
      (qualName r.table_schema r.table_name, relationDdl (canonicalize data) r),
   (canonicalize data).tables.map fun r =>
      (qualName r.table_schema r.table_name, relationKind r))

/-! ## The schema cache (`src/lib/cache.ts`) and the sync command flow -/

/-- The JSON value universe: what `JSON.parse` can return. -/
inductive Json where
  | null : Json
  | bool (b : Bool) : Json
  | num (n : Int) : Json
  | str (s : String) : Json
  | arr (items : List Json) : Json
  | obj (fields : List (String × Json)) : Json

/-- The possible states of the cache file as `readSchemaCache` observes them:
missing, unreadable (read throws), unparsable (`JSON.parse` throws), or
parsed to a JSON value.  `JSON.parse` output has unique object keys, so
field access on `parsed` values is plain association lookup. -/
inductive FileState where
  | absent
  | unreadable
  | badJson
  | parsed (v : Json)

/-- JavaScript property access `v.name`: `none` models `undefined`. -/
def jsonField : Json → String → Option Json
  | .obj fields, name => List.lookup name fields
  | _, _ => none

/-- JavaScript falsiness of a JSON value (`!data`). -/
def jsFalsy : Json → Bool
  | .null => true
  | .bool b => !b
  | .num n => n == 0
  | .str s => s == ""
  | .arr _ => false
  | .obj _ => false

/-- JavaScript `typeof` restricted to JSON values — note `typeof null`,
`typeof []` and `typeof` of a plain object are all `"object"`. -/
def jsTypeof : Json → String
  | .null => "object"
  | .bool _ => "boolean"
  | .num _ => "number"
  | .str _ => "string"
  | .arr _ => "object"
  | .obj _ => "object"

/-- A JSON object proper (what the spec sentence "tables field is an object"
denotes). -/
def isJsonObject : Json → Bool
  | .obj _ => true
  | _ => false

/-- `readSchemaCache` from `src/lib/cache.ts`: every failure path returns
null; a parsed value is returned only when it is truthy and its `tables`
field passes the JavaScript `typeof data.tables === "object"` check. -/
def readSchemaCache : FileState → Option Json
  | .absent => none
  | .unreadable => none
  | .badJson => none
  | .parsed v =>
    if jsFalsy v then none
    else
      match jsonField v "tables" with
      | none => none
      | some t => if jsTypeof t == "object" then some v else none

/-- `TableCacheEntry` from `src/lib/cache.ts`. -/
structure TableCacheEntry where
  ddl : String
  schema : Option String
  type : String
deriving DecidableEq

/-- The characters of `s` before the first dot: `key.split(".")[0]`. -/
def takeUntilDot : List Char → List Char
  | [] => []
  | c :: cs => if c == '.' then [] else c :: takeUntilDot cs

def firstSegment (s : String) : String := String.mk (takeUntilDot s.data)

/-- One persisted entry as `sync-schema.tsx` builds it:
`{ ddl, schema: key.split(".")[0], type: tableTypes.get(key) ?? "table" }`. -/
def entryFor (types : List (String × String)) (key ddlText : String) : TableCacheEntry :=
  ⟨ddlText, some (firstSegment key), (List.lookup key types).getD "table"⟩

/-- The `tables` record built by the sync command from the two synthesizer
mappings, in DDL-mapping iteration order. -/
def syncCacheTables (ddls types : List (String × String)) :
    List (String × TableCacheEntry) :=
  ddls.map fun kv => (kv.1, entryFor types kv.1 kv.2)

/-- Outcome of one sync attempt, as surfaced to the user via toast. -/
inductive SyncOutcome where
  | success (tableCount : Nat)
  | failure (message : String)
deriving DecidableEq

/-- The sync command flow (`sync-schema.tsx` lines 40-84): connect, fetch the
snapshot, synthesize, write the cache.  The result pairs the reported
outcome with the list of `writeSchemaCache` calls performed.  A connect
failure or a `fetchSchemaData` failure jumps to the catch block: the error
message is reported and no write happens. -/
def runSyncSchema (connectErr : Option String) (c : Client) :
    SyncOutcome × List (List (String × TableCacheEntry)) :=
  match connectErr with
  | some e => (.failure e, [])
  | none =>
    match fetchSchemaData c with
    | .error e => (.failure e, [])
    | .ok data =>
      let tables := syncCacheTables (buildSchemaDdl data).1 (buildSchemaDdl data).2
      (.success tables.length, [tables])

def encodeEntry (e : TableCacheEntry) : Json :=
  .obj ([("ddl", .str e.ddl)] ++
    (match e.schema with
     | some s => [("schema", Json.str s)]
     | none => []) ++
    [("type", .str e.type)])

def encodeCache (tables : List (String × TableCacheEntry)) : Json :=
  .obj [("tables", .obj (tables.map fun kv => (kv.1, encodeEntry kv.2)))]

/-- Effect of a sequence of `writeSchemaCache` calls on the cache file. -/
def applySyncWrites (prev : FileState)
    (writes : List (List (String × TableCacheEntry))) : FileState :=
  writes.foldl (fun _ w => FileState.parsed (encodeCache w)) prev

/-! ## Exclusion rules (`src/lib/exclusion.ts`) -/
inductive ExclusionRuleType where
  | regex
  | contains
  | not_contains
deriving DecidableEq

structure ExclusionRule where
  id : String
  type : ExclusionRuleType
  pattern : String
deriving DecidableEq

/-- An abstract JavaScript regular-expression engine: `valid p = false`
models `new RegExp(p)` throwing a `SyntaxError`; `test p s` is
`new RegExp(p).test(s)` for valid patterns. -/
structure RegexEngine where
  valid : String → Bool
  test : String → String → Bool

def listIsPrefix : List Char → List Char → Bool
  | [], _ => true
  | _ :: _, [] => false
  | a :: as, b :: bs => a == b && listIsPrefix as bs

def listInfix (needle : List Char) : List Char → Bool
  | [] => needle.isEmpty
  | c :: rest => listIsPrefix needle (c :: rest) || listInfix needle rest

/-- JavaScript `hay.includes(pat)`. -/
def strIncludes (hay pat : String) : Bool := listInfix pat.data hay.data

/-- One iteration of the `switch` in `isTableExcluded`: a regex rule whose
pattern fails to compile is caught and skipped (matches nothing). -/
def ruleMatches (eng : RegexEngine) (tableKey : String) (rule : ExclusionRule) : Bool :=
  match rule.type with
  | .regex => if eng.valid rule.pattern then eng.test rule.pattern tableKey else false
  | .contains => strIncludes tableKey rule.pattern
  | .not_contains => !(strIncludes tableKey rule.pattern)

/-- `isTableExcluded` from `src/lib/exclusion.ts`: true when any rule
matches. -/
def isTableExcluded (eng : RegexEngine) (tableKey : String) :
    List ExclusionRule → Bool
  | [] => false
  | rule :: rest => ruleMatches eng tableKey rule || isTableExcluded eng tableKey rest

/-- `filterTables` from `src/lib/exclusion.ts`. -/
def filterTables {α : Type} (keyOf : α → String) (eng : RegexEngine)
    (items : List α) (rules : List ExclusionRule) : List α :=
  if rules.isEmpty then items
  else items.filter fun i => !(isTableExcluded eng (keyOf i) rules)

/-! ## Fixtures for witnesses and counterexamples -/
def tRowEx : TableRow := ⟨"public", "users", "BASE TABLE"⟩

def cRowEx : ColumnRow :=
  ⟨"public", "users", "id", 1, "integer", "pg_catalog", "int4", "NO",
   none, none, some 32, some 0⟩

def eRowEx : EnumTypeRow := ⟨"public", "status", "active", 0⟩

def pRowEx : PrimaryKeyRow := ⟨"public", "users", "users_pkey", "id", 1⟩

def uRowEx : UniqueRow := ⟨"public", "users", "users_email_key", "email", 1⟩

def fRowEx : ForeignKeyRow :=
  ⟨"public", "orders", "user_id", 1, "orders_user_id_fkey", "public", "users", "id"⟩

def iRowExA : IndexRow :=
  ⟨"public", "t", "ix_a", "CREATE INDEX ix_a ON public.t USING btree (a)"⟩

def iRowExB : IndexRow :=
  ⟨"public", "t", "ix_b", "CREATE INDEX ix_b ON public.t USING btree (b)"⟩

/-- A small database: note the two indexes on `public.t` arrive with
`ix_b` before `ix_a`. -/
def dbEx : Db :=
  ⟨[tRowEx], [cRowEx], [eRowEx], [pRowEx], [uRowEx], [fRowEx], [iRowExB, iRowExA]⟩

def clientEx : Client := ⟨dbEx, none, none, none, none, none, none, none⟩

/-- The sort key the claim asserts for the index collection: schema, then
relation, then the index name as the stable secondary key. -/
def indexClaimKey (i : IndexRow) : Key :=
  .str i.schemaname.data (.str i.tablename.data (.str i.indexname.data .nil))

/-- The parsed form of a cache file holding `{"tables": null}`. -/
def tablesNullJson : Json := .obj [("tables", Json.null)]

/-! ## Claim theorems -/

def tRowEx2 : TableRow := ⟨"public", "orders", "BASE TABLE"⟩

def cRowEx2 : ColumnRow :=
  ⟨"public", "users", "name", 2, "character varying", "pg_catalog", "varchar",
   "YES", none, some 100, none, none⟩

/-- A snapshot with two relations and two columns, in one arrival order. -/
def ddlSnapA : SchemaData :=
  ⟨[tRowEx, tRowEx2], [cRowEx, cRowEx2], [eRowEx], [pRowEx], [uRowEx],
   [fRowEx], [iRowExB, iRowExA]⟩

/-- The same rows as `ddlSnapA` with several collections reordered. -/
def ddlSnapB : SchemaData :=
  ⟨[tRowEx2, tRowEx], [cRowEx2, cRowEx], [eRowEx], [pRowEx], [uRowEx],
   [fRowEx], [iRowExA, iRowExB]⟩

/-- The error message a failed sync attempt reports: the connect error when
connecting failed, otherwise the catalog read error. -/
def underlyingError (connectErr : Option String) (c : Client) : String :=
  match connectErr with
  | some e => e
  | none =>
    match fetchSchemaData c with
    | .error e => e
    | .ok _ => ""

/-! ## Theorems -/

theorem charListLt_irrefl (l : List Char) : charListLt l l = false := by
  induction l with
  | nil => rfl
  | cons a as ih => simp [charListLt, lt_irrefl, ih]

theorem charListLt_cons_iff {x y : Char} {as bs : List Char} :
    charListLt (x :: as) (y :: bs) = true ↔
      (x < y ∨ (x = y ∧ charListLt as bs = true)) := by
  simp only [charListLt]
  split_ifs with h1 h2
  · simp [h1]
  · constructor
    · intro h; cases h
    · rintro (h | ⟨rfl, _⟩)
      · exact absurd h h1
      · exact absurd h2 (lt_irrefl x)
  · have hxy : x = y := le_antisymm (le_of_not_lt h2) (le_of_not_lt h1)
    simp [hxy]

theorem charListLt_cons_same {x : Char} {as bs : List Char} :
    charListLt (x :: as) (x :: bs) = charListLt as bs := by
  simp [charListLt, lt_irrefl]

theorem charListLt_asymm : ∀ {a b : List Char},
    charListLt a b = true → charListLt b a = false := by
  intro a
  induction a with
  | nil =>
    intro b h
    cases b with
    | nil => cases h
    | cons y bs => rfl
  | cons x as ih =>
    intro b h
    cases b with
    | nil => cases h
    | cons y bs =>
      rw [charListLt_cons_iff] at h
      cases hba : charListLt (y :: bs) (x :: as) with
      | false => rfl
      | true =>
        rw [charListLt_cons_iff] at hba
        rcases h with h | ⟨rfl, h⟩
        · rcases hba with h2 | ⟨h2, _⟩
          · exact absurd h2 (lt_asymm h)
          · exact absurd h (h2 ▸ lt_irrefl y)
        · rcases hba with h2 | ⟨_, h2⟩
          · exact absurd h2 (lt_irrefl x)
          · rw [ih h] at h2; cases h2

theorem charListLt_trans : ∀ {a b c : List Char},
    charListLt a b = true → charListLt b c = true → charListLt a c = true := by
  intro a
  induction a with
  | nil =>
    intro b c hab hbc
    cases b with
    | nil => cases hab
    | cons y bs =>
      cases c with
      | nil => cases hbc
      | cons z cs => rfl
  | cons x as ih =>
    intro b c hab hbc
    cases b with
    | nil => cases hab
    | cons y bs =>
      cases c with
      | nil => cases hbc
      | cons z cs =>
        rw [charListLt_cons_iff] at hab hbc ⊢
        rcases hab with h1 | ⟨rfl, h1⟩
        · rcases hbc with h2 | ⟨rfl, h2⟩
          · exact Or.inl (lt_trans h1 h2)
          · exact Or.inl h1
        · rcases hbc with h2 | ⟨rfl, h2⟩
          · exact Or.inl h2
          · exact Or.inr ⟨rfl, ih h1 h2⟩

theorem charListLt_eq_of_not : ∀ {a b : List Char},
    charListLt a b = false → charListLt b a = false → a = b := by
  intro a
  induction a with
  | nil =>
    intro b hab _
    cases b with
    | nil => rfl
    | cons y bs => cases hab
  | cons x as ih =>
    intro b hab hba
    cases b with
    | nil => cases hba
    | cons y bs =>
      have h1 : ¬ x < y := fun h => by
        rw [charListLt_cons_iff.mpr (Or.inl h)] at hab; cases hab
      have h2 : ¬ y < x := fun h => by
        rw [charListLt_cons_iff.mpr (Or.inl h)] at hba; cases hba
      have hxy : x = y := le_antisymm (le_of_not_lt h2) (le_of_not_lt h1)
      subst hxy
      rw [charListLt_cons_same] at hab hba
      rw [ih hab hba]

theorem Key.le_str_iff {a b : List Char} {ra rb : Key} :
    Key.le (.str a ra) (.str b rb) = true ↔
      (charListLt a b = true ∨ (a = b ∧ Key.le ra rb = true)) := by
  simp only [Key.le]
  split_ifs with h1 h2
  · simp [h1]
  · constructor
    · intro h; cases h
    · rintro (h | ⟨rfl, _⟩)
      · exact absurd h h1
      · exact absurd h2 (by simp [charListLt_irrefl a])
  · have hab : a = b := charListLt_eq_of_not (by simpa using h1) (by simpa using h2)
    simp [hab, charListLt_irrefl]

theorem charListLt_trichotomy (a b : List Char) :
    charListLt a b = true ∨ a = b ∨ charListLt b a = true := by
  by_cases h1 : charListLt a b = true
  · exact Or.inl h1
  · by_cases h2 : charListLt b a = true
    · exact Or.inr (Or.inr h2)
    · exact Or.inr (Or.inl (charListLt_eq_of_not
        (Bool.not_eq_true _ ▸ h1) (Bool.not_eq_true _ ▸ h2)))

theorem Key.le_nat_iff {a b : Nat} {ra rb : Key} :
    Key.le (.nat a ra) (.nat b rb) = true ↔ (a < b ∨ (a = b ∧ Key.le ra rb = true)) := by
  simp only [Key.le]
  split_ifs with h1 h2
  · simp [h1]
  · constructor
    · intro h; cases h
    · rintro (h | ⟨rfl, _⟩)
      · exact absurd h h1
      · exact absurd h2 (lt_irrefl a)
  · have hab : a = b := Nat.le_antisymm (not_lt.mp h2) (not_lt.mp h1)
    simp [hab]

theorem Key.le_refl (k : Key) : Key.le k k = true := by
  induction k with
  | nil => rfl
  | str a r ih => rw [Key.le_str_iff]; exact Or.inr ⟨rfl, ih⟩
  | nat a r ih => rw [Key.le_nat_iff]; exact Or.inr ⟨rfl, ih⟩

theorem Key.le_total (a b : Key) : Key.le a b = true ∨ Key.le b a = true := by
  induction a generalizing b with
  | nil => exact Or.inl rfl
  | str x ra ih =>
    cases b with
    | nil => exact Or.inr rfl
    | nat y rb => exact Or.inl rfl
    | str y rb =>
      rcases charListLt_trichotomy x y with h | h | h
      · exact Or.inl (Key.le_str_iff.mpr (Or.inl h))
      · rcases ih rb with hr | hr
        · exact Or.inl (Key.le_str_iff.mpr (Or.inr ⟨h, hr⟩))
        · exact Or.inr (Key.le_str_iff.mpr (Or.inr ⟨h.symm, hr⟩))
      · exact Or.inr (Key.le_str_iff.mpr (Or.inl h))
  | nat x ra ih =>
    cases b with
    | nil => exact Or.inr rfl
    | str y rb => exact Or.inr rfl
    | nat y rb =>
      rcases lt_trichotomy x y with h | h | h
      · exact Or.inl (Key.le_nat_iff.mpr (Or.inl h))
      · rcases ih rb with hr | hr
        · exact Or.inl (Key.le_nat_iff.mpr (Or.inr ⟨h, hr⟩))
        · exact Or.inr (Key.le_nat_iff.mpr (Or.inr ⟨h.symm, hr⟩))
      · exact Or.inr (Key.le_nat_iff.mpr (Or.inl h))

theorem Key.le_trans : ∀ {a b c : Key},
    Key.le a b = true → Key.le b c = true → Key.le a c = true := by
  intro a
  induction a with
  | nil => intro b c _ _; rfl
  | str x ra ih =>
    intro b c hab hbc
    cases b with
    | nil => cases hab
    | nat y rb =>
      cases c with
      | nil => cases hbc
      | str z rc => cases hbc
      | nat z rc => rfl
    | str y rb =>
      cases c with
      | nil => cases hbc
      | nat z rc => rfl
      | str z rc =>
        rcases Key.le_str_iff.mp hab with h1 | ⟨rfl, h1⟩
        · rcases Key.le_str_iff.mp hbc with h2 | ⟨rfl, h2⟩
          · exact Key.le_str_iff.mpr (Or.inl (charListLt_trans h1 h2))
          · exact Key.le_str_iff.mpr (Or.inl h1)
        · rcases Key.le_str_iff.mp hbc with h2 | ⟨rfl, h2⟩
          · exact Key.le_str_iff.mpr (Or.inl h2)
          · exact Key.le_str_iff.mpr (Or.inr ⟨rfl, ih h1 h2⟩)
  | nat x ra ih =>
    intro b c hab hbc
    cases b with
    | nil => cases hab
    | str y rb => cases hab
    | nat y rb =>
      cases c with
      | nil => cases hbc
      | str z rc => cases hbc
      | nat z rc =>
        rcases Key.le_nat_iff.mp hab with h1 | ⟨rfl, h1⟩
        · rcases Key.le_nat_iff.mp hbc with h2 | ⟨rfl, h2⟩
          · exact Key.le_nat_iff.mpr (Or.inl (lt_trans h1 h2))
          · exact Key.le_nat_iff.mpr (Or.inl h1)
        · rcases Key.le_nat_iff.mp hbc with h2 | ⟨rfl, h2⟩
          · exact Key.le_nat_iff.mpr (Or.inl h2)
          · exact Key.le_nat_iff.mpr (Or.inr ⟨rfl, ih h1 h2⟩)

theorem Key.le_antisymm : ∀ {a b : Key},
    Key.le a b = true → Key.le b a = true → a = b := by
  intro a
  induction a with
  | nil =>
    intro b _ hba
    cases b with
    | nil => rfl
    | str y rb => cases hba
    | nat y rb => cases hba
  | str x ra ih =>
    intro b hab hba
    cases b with
    | nil => cases hab
    | nat y rb => cases hba
    | str y rb =>
      rcases Key.le_str_iff.mp hab with h1 | ⟨rfl, h1⟩
      · rcases Key.le_str_iff.mp hba with h2 | ⟨h2, _⟩
        · rw [charListLt_asymm h1] at h2; cases h2
        · subst h2; rw [charListLt_irrefl] at h1; cases h1
      · rcases Key.le_str_iff.mp hba with h2 | ⟨_, h2⟩
        · rw [charListLt_irrefl] at h2; cases h2
        · rw [ih h1 h2]
  | nat x ra ih =>
    intro b hab hba
    cases b with
    | nil => cases hab
    | str y rb => cases hab
    | nat y rb =>
      rcases Key.le_nat_iff.mp hab with h1 | ⟨rfl, h1⟩
      · rcases Key.le_nat_iff.mp hba with h2 | ⟨h2, _⟩
        · exact absurd h2 (Nat.lt_asymm h1)
        · exact absurd h1 (h2 ▸ lt_irrefl y)
      · rcases Key.le_nat_iff.mp hba with h2 | ⟨_, h2⟩
        · exact absurd h2 (lt_irrefl x)
        · rw [ih h1 h2]

theorem rowSort_perm {α : Type} (k : α → Key) (l : List α) :
    List.Perm (rowSort k l) l :=
  List.perm_insertionSort _ _

@[simp]

theorem mem_rowSort {α : Type} {k : α → Key} {l : List α} {x : α} :
    x ∈ rowSort k l ↔ x ∈ l :=
  (rowSort_perm k l).mem_iff

theorem rowSort_sorted {α : Type} (k : α → Key) (l : List α) :
    List.Sorted (keyLe k) (rowSort k l) := by
  haveI : IsTotal α (keyLe k) := ⟨fun a b => Key.le_total (k a) (k b)⟩
  haveI : IsTrans α (keyLe k) := ⟨fun _ _ _ hab hbc => Key.le_trans hab hbc⟩
  exact List.sorted_insertionSort _ l

theorem rowSort_eq_of_perm {α : Type} {k : α → Key}
    (hk : ∀ a b, k a = k b → a = b) {l₁ l₂ : List α} (h : List.Perm l₁ l₂) :
    rowSort k l₁ = rowSort k l₂ := by
  haveI : IsAntisymm α (keyLe k) :=
    ⟨fun a b h1 h2 => hk a b (Key.le_antisymm h1 h2)⟩
  haveI : IsTotal α (keyLe k) := ⟨fun a b => Key.le_total (k a) (k b)⟩
  haveI : IsTrans α (keyLe k) := ⟨fun _ _ _ hab hbc => Key.le_trans hab hbc⟩
  exact List.eq_of_perm_of_sorted
    ((rowSort_perm k l₁).trans (h.trans (rowSort_perm k l₂).symm))
    (rowSort_sorted k l₁) (rowSort_sorted k l₂)

theorem fetchSchemaData_ok_of_noFail (c : Client) (h : noQueryFailure c) :
    fetchSchemaData c = Except.ok (fullSnapshot c.db) := by
  obtain ⟨h1, h2, h3, h4, h5, h6, h7⟩ := h
  simp [fetchSchemaData, queryResult, fullSnapshot, h1, h2, h3, h4, h5, h6, h7,
    Bind.bind, Except.bind, Pure.pure, Except.pure]

theorem exists_error_of_fail (c : Client) (h : ¬ noQueryFailure c) :
    ∃ e, fetchSchemaData c = Except.error e := by
  cases h1 : c.tablesFail with
  | some e =>
    exact ⟨e, by simp [fetchSchemaData, queryResult, h1, Bind.bind, Except.bind]⟩
  | none =>
  cases h2 : c.columnsFail with
  | some e =>
    exact ⟨e, by simp [fetchSchemaData, queryResult, h1, h2, Bind.bind, Except.bind]⟩
  | none =>
  cases h3 : c.enumsFail with
  | some e =>
    exact ⟨e, by simp [fetchSchemaData, queryResult, h1, h2, h3, Bind.bind, Except.bind]⟩
  | none =>
  cases h4 : c.pksFail with
  | some e =>
    exact ⟨e, by simp [fetchSchemaData, queryResult, h1, h2, h3, h4, Bind.bind, Except.bind]⟩
  | none =>
  cases h5 : c.uniquesFail with
  | some e =>
    exact ⟨e, by simp [fetchSchemaData, queryResult, h1, h2, h3, h4, h5, Bind.bind, Except.bind]⟩
  | none =>
  cases h6 : c.fksFail with
  | some e =>
    exact ⟨e, by simp [fetchSchemaData, queryResult, h1, h2, h3, h4, h5, h6,
      Bind.bind, Except.bind]⟩
  | none =>
  cases h7 : c.indexesFail with
  | some e =>
    exact ⟨e, by simp [fetchSchemaData, queryResult, h1, h2, h3, h4, h5, h6, h7,
      Bind.bind, Except.bind]⟩
  | none =>
    exact absurd ⟨h1, h2, h3, h4, h5, h6, h7⟩ h

theorem fetchSchemaData_eq_ok {c : Client} {s : SchemaData}
    (h : fetchSchemaData c = Except.ok s) : s = fullSnapshot c.db := by
  by_cases hf : noQueryFailure c
  · rw [fetchSchemaData_ok_of_noFail c hf] at h
    exact (Except.ok.injEq _ _ ▸ h).symm
  · obtain ⟨e, he⟩ := exists_error_of_fail c hf
    rw [he] at h
    cases h

/-! ## Helper lemmas -/
theorem stringData_inj {a b : String} (h : a.data = b.data) : a = b :=
  String.ext h

theorem optNat_inj {a b : Option Nat} (h : optNat a = optNat b) : a = b := by
  cases a <;> cases b <;> simp_all [optNat]

theorem optStrTag_inj {a b : Option String} (h1 : optTag a = optTag b)
    (h2 : (optStr a).data = (optStr b).data) : a = b := by
  cases a <;> cases b <;> simp_all [optTag, optStr]
  exact stringData_inj h2

theorem tableFullKey_inj : ∀ a b : TableRow, tableFullKey a = tableFullKey b → a = b := by
  intro a b h
  cases a; cases b
  simp only [tableFullKey, Key.str.injEq] at h
  obtain ⟨h1, h2, h3, -⟩ := h
  simp only [TableRow.mk.injEq]
  exact ⟨stringData_inj h1, stringData_inj h2, stringData_inj h3⟩

theorem columnFullKey_inj : ∀ a b : ColumnRow, columnFullKey a = columnFullKey b → a = b := by
  intro a b h
  cases a; cases b
  simp only [columnFullKey, Key.str.injEq, Key.nat.injEq] at h
  obtain ⟨h1, h2, h3, h4, h5, h6, h7, h8, h9, h10, h11, h12, h13, -⟩ := h
  simp only [ColumnRow.mk.injEq]
  exact ⟨stringData_inj h1, stringData_inj h2, stringData_inj h4, h3,
    stringData_inj h5, stringData_inj h6, stringData_inj h7, stringData_inj h8,
    optStrTag_inj h9 h10, optNat_inj h11, optNat_inj h12, optNat_inj h13⟩

theorem enumFullKey_inj : ∀ a b : EnumTypeRow, enumFullKey a = enumFullKey b → a = b := by
  intro a b h
  cases a; cases b
  simp only [enumFullKey, Key.str.injEq, Key.nat.injEq] at h
  obtain ⟨h1, h2, h3, h4, -⟩ := h
  simp only [EnumTypeRow.mk.injEq]
  exact ⟨stringData_inj h1, stringData_inj h2, stringData_inj h4, h3⟩

theorem pkFullKey_inj : ∀ a b : PrimaryKeyRow, pkFullKey a = pkFullKey b → a = b := by
  intro a b h
  cases a; cases b
  simp only [pkFullKey, Key.str.injEq, Key.nat.injEq] at h
  obtain ⟨h1, h2, h3, h4, h5, -⟩ := h
  simp only [PrimaryKeyRow.mk.injEq]
  exact ⟨stringData_inj h1, stringData_inj h2, stringData_inj h3,
    stringData_inj h5, h4⟩

theorem uniqueFullKey_inj : ∀ a b : UniqueRow, uniqueFullKey a = uniqueFullKey b → a = b := by
  intro a b h
  cases a; cases b
  simp only [uniqueFullKey, Key.str.injEq, Key.nat.injEq] at h
  obtain ⟨h1, h2, h3, h4, h5, -⟩ := h
  simp only [UniqueRow.mk.injEq]
  exact ⟨stringData_inj h1, stringData_inj h2, stringData_inj h3,
    stringData_inj h5, h4⟩

theorem fkFullKey_inj : ∀ a b : ForeignKeyRow, fkFullKey a = fkFullKey b → a = b := by
  intro a b h
  cases a; cases b
  simp only [fkFullKey, Key.str.injEq, Key.nat.injEq] at h
  obtain ⟨h1, h2, h3, h4, h5, h6, h7, h8, -⟩ := h
  simp only [ForeignKeyRow.mk.injEq]
  exact ⟨stringData_inj h1, stringData_inj h2, stringData_inj h5, h4,
    stringData_inj h3, stringData_inj h6, stringData_inj h7, stringData_inj h8⟩

theorem indexFullKey_inj : ∀ a b : IndexRow, indexFullKey a = indexFullKey b → a = b := by
  intro a b h
  cases a; cases b
  simp only [indexFullKey, Key.str.injEq] at h
  obtain ⟨h1, h2, h3, h4, -⟩ := h
  simp only [IndexRow.mk.injEq]
  exact ⟨stringData_inj h1, stringData_inj h2, stringData_inj h3, stringData_inj h4⟩

theorem Key.le_str_same {a : List Char} {ra rb : Key} :
    Key.le (.str a ra) (.str a rb) = Key.le ra rb := by
  simp [Key.le, charListLt_irrefl]

theorem Key.le_nat_head {a b : Nat} {ra rb : Key}
    (h : Key.le (.nat a ra) (.nat b rb) = true) : a ≤ b := by
  rcases Key.le_nat_iff.mp h with h | ⟨rfl, _⟩
  · exact le_of_lt h
  · exact le_rfl

/-- Looking up a key of an association list built by mapping `f`/`g` over a
row list finds the value at the first row whose `f` equals the key. -/
theorem lookup_map_pair {α : Type} (f : α → String) (g : α → String)
    (l : List α) (k : String) (hk : k ∈ l.map f) :
    ∃ y ∈ l, f y = k ∧ List.lookup k (l.map fun r => (f r, g r)) = some (g y) := by
  induction l with
  | nil => cases hk
  | cons x xs ih =>
    by_cases hx : k = f x
    · subst hx
      exact ⟨x, List.mem_cons_self x xs, rfl, by simp [List.lookup]⟩
    · have hk' : k ∈ xs.map f := by
        rcases List.mem_map.mp hk with ⟨y, hy, hfy⟩
        rcases List.mem_cons.mp hy with rfl | hy'
        · exact absurd hfy.symm hx
        · exact List.mem_map.mpr ⟨y, hy', hfy⟩
      obtain ⟨y, hy, hfy, hl⟩ := ih hk'
      refine ⟨y, List.mem_cons_of_mem x hy, hfy, ?_⟩
      have hbeq : (k == f x) = false := beq_eq_false_iff_ne.mpr hx
      simp [List.lookup, hbeq, hl]

/-- C1: `fetchSchemaData` either returns a snapshot containing all seven row
collections (tables, columns, enums, primary keys, unique constraints,
foreign keys, indexes) or fails as a whole with a single error: when all
seven queries succeed the result is the full snapshot, and when any of the
seven fails the whole call fails — no partial snapshot is ever returned. -/
theorem fetchSchemaData_all_or_nothing (c : Client) :
    (noQueryFailure c ∧ fetchSchemaData c = Except.ok (fullSnapshot c.db)) ∨
    (¬ noQueryFailure c ∧ ∃ e, fetchSchemaData c = Except.error e) := by
  by_cases h : noQueryFailure c
  · exact Or.inl ⟨h, fetchSchemaData_ok_of_noFail c h⟩
  · exact Or.inr ⟨h, exists_error_of_fail c h⟩

/-- C2 (amended): six of the seven collections returned by `fetchSchemaData`
are sorted by their query's full `ORDER BY` key — schema, then relation
name, then a stable secondary key (ordinal position, or constraint name and
ordinal position).  The index collection is sorted by schema then relation
name only: its query has no secondary sort key, so indexes of one relation
are in no guaranteed order (see the counterexample
`indexes_not_sorted_by_secondary_key`). -/
theorem fetchSchemaData_collections_sorted (c : Client) (s : SchemaData)
    (h : fetchSchemaData c = Except.ok s) :
    List.Sorted (keyLe tableQueryKey) s.tables ∧
    List.Sorted (keyLe columnQueryKey) s.columns ∧
    List.Sorted (keyLe enumQueryKey) s.enums ∧
    List.Sorted (keyLe pkQueryKey) s.primaryKeys ∧
    List.Sorted (keyLe uniqueQueryKey) s.uniques ∧
    List.Sorted (keyLe fkQueryKey) s.foreignKeys ∧
    List.Sorted (keyLe indexQueryKey) s.indexes := by
  obtain rfl := fetchSchemaData_eq_ok h
  exact ⟨rowSort_sorted _ _, rowSort_sorted _ _, rowSort_sorted _ _,
    rowSort_sorted _ _, rowSort_sorted _ _, rowSort_sorted _ _,
    rowSort_sorted _ _⟩

/-- C2 witness: on the concrete client `clientEx` all seven queries succeed
and the returned collections satisfy the amended sortedness guarantees. -/
theorem fetchSchemaData_collections_sorted_witness :
    List.Sorted (keyLe tableQueryKey) (fullSnapshot clientEx.db).tables ∧
    List.Sorted (keyLe columnQueryKey) (fullSnapshot clientEx.db).columns ∧
    List.Sorted (keyLe enumQueryKey) (fullSnapshot clientEx.db).enums ∧
    List.Sorted (keyLe pkQueryKey) (fullSnapshot clientEx.db).primaryKeys ∧
    List.Sorted (keyLe uniqueQueryKey) (fullSnapshot clientEx.db).uniques ∧
    List.Sorted (keyLe fkQueryKey) (fullSnapshot clientEx.db).foreignKeys ∧
    List.Sorted (keyLe indexQueryKey) (fullSnapshot clientEx.db).indexes :=
  fetchSchemaData_collections_sorted clientEx (fullSnapshot clientEx.db) rfl

/-- C2 counterexample: the claim as stated fails for the index collection.
On `clientEx` the read succeeds and returns the index rows of `public.t` as
`[ix_b, ix_a]` — not sorted by the index name, i.e. by schema, relation and
a stable secondary key — because `INDEXES_QUERY` orders by schema and table
name only. -/
theorem indexes_not_sorted_by_secondary_key :
    fetchSchemaData clientEx = Except.ok (fullSnapshot clientEx.db) ∧
    (fullSnapshot clientEx.db).indexes = [iRowExB, iRowExA] ∧
    ¬ List.Sorted (keyLe indexClaimKey) [iRowExB, iRowExA] := by
  refine ⟨rfl, by decide, by decide⟩

/-- C8: every row in every collection returned by `fetchSchemaData` carries
a schema outside the system namespaces `pg_catalog` and
`information_schema`, and every relation row's catalog kind is a base table
or a view. -/
theorem fetchSchemaData_user_namespaces_only (c : Client) (s : SchemaData)
    (h : fetchSchemaData c = Except.ok s) :
    (∀ r ∈ s.tables, (r.table_schema ≠ "pg_catalog" ∧
        r.table_schema ≠ "information_schema") ∧
        (r.table_type = "BASE TABLE" ∨ r.table_type = "VIEW")) ∧
    (∀ r ∈ s.columns, r.table_schema ≠ "pg_catalog" ∧
        r.table_schema ≠ "information_schema") ∧
    (∀ r ∈ s.enums, r.nspname ≠ "pg_catalog" ∧
        r.nspname ≠ "information_schema") ∧
    (∀ r ∈ s.primaryKeys, r.table_schema ≠ "pg_catalog" ∧
        r.table_schema ≠ "information_schema") ∧
    (∀ r ∈ s.uniques, r.table_schema ≠ "pg_catalog" ∧
        r.table_schema ≠ "information_schema") ∧
    (∀ r ∈ s.foreignKeys, r.table_schema ≠ "pg_catalog" ∧
        r.table_schema ≠ "information_schema") ∧
    (∀ r ∈ s.indexes, r.schemaname ≠ "pg_catalog" ∧
        r.schemaname ≠ "information_schema") := by
  obtain rfl := fetchSchemaData_eq_ok h
  refine ⟨?_, ?_, ?_, ?_, ?_, ?_, ?_⟩ <;> intro r hr <;>
    rw [fullSnapshot] at hr <;>
    simp only [runTablesQuery, runColumnsQuery, runEnumsQuery,
      runPrimaryKeysQuery, runUniquesQuery, runForeignKeysQuery,
      runIndexesQuery, mem_rowSort, List.mem_filter] at hr
  · obtain ⟨-, hp⟩ := hr
    simp only [isSystemSchema, Bool.and_eq_true, Bool.not_eq_true',
      Bool.or_eq_false_iff, Bool.or_eq_true, beq_iff_eq, beq_eq_false_iff_ne] at hp
    exact ⟨hp.1, hp.2⟩
  all_goals
    obtain ⟨-, hp⟩ := hr
  all_goals
    simp only [isSystemSchema, Bool.not_eq_true', Bool.or_eq_false_iff,
      beq_eq_false_iff_ne] at hp
  all_goals exact hp

/-- C8 witness: the theorem applied to the concrete client `clientEx` and
the relation row `tRowEx` of its snapshot. -/
theorem fetchSchemaData_user_namespaces_only_witness :
    (tRowEx.table_schema ≠ "pg_catalog" ∧
      tRowEx.table_schema ≠ "information_schema") ∧
    (tRowEx.table_type = "BASE TABLE" ∨ tRowEx.table_type = "VIEW") :=
  (fetchSchemaData_user_namespaces_only clientEx (fullSnapshot clientEx.db) rfl).1
    tRowEx (by decide)

/-- C3: `buildSchemaDdl` is deterministic and permutation-invariant — two
snapshots containing the same rows, in any order within each of the seven
collections, produce identical DDL mappings and identical kind mappings. -/
theorem buildSchemaDdl_perm_invariant (d₁ d₂ : SchemaData)
    (ht : List.Perm d₁.tables d₂.tables)
    (hc : List.Perm d₁.columns d₂.columns)
    (he : List.Perm d₁.enums d₂.enums)
    (hp : List.Perm d₁.primaryKeys d₂.primaryKeys)
    (hu : List.Perm d₁.uniques d₂.uniques)
    (hf : List.Perm d₁.foreignKeys d₂.foreignKeys)
    (hi : List.Perm d₁.indexes d₂.indexes) :
    buildSchemaDdl d₁ = buildSchemaDdl d₂ := by
  have hcanon : canonicalize d₁ = canonicalize d₂ := by
    simp only [canonicalize, SchemaData.mk.injEq]
    exact ⟨rowSort_eq_of_perm tableFullKey_inj ht,
      rowSort_eq_of_perm columnFullKey_inj hc,
      rowSort_eq_of_perm enumFullKey_inj he,
      rowSort_eq_of_perm pkFullKey_inj hp,
      rowSort_eq_of_perm uniqueFullKey_inj hu,
      rowSort_eq_of_perm fkFullKey_inj hf,
      rowSort_eq_of_perm indexFullKey_inj hi⟩
  simp only [buildSchemaDdl, hcanon]

/-- C3 witness: the theorem applied to the two concrete reorderings
`ddlSnapA` and `ddlSnapB` of the same row set. -/
theorem buildSchemaDdl_perm_invariant_witness :
    List.Perm ddlSnapA.tables ddlSnapB.tables ∧
    buildSchemaDdl ddlSnapA = buildSchemaDdl ddlSnapB :=
  ⟨by decide,
   buildSchemaDdl_perm_invariant ddlSnapA ddlSnapB (by decide) (by decide)
     (by decide) (by decide) (by decide) (by decide) (by decide)⟩

/-- C4: for every relation in the snapshot's relation set, the DDL text that
`buildSchemaDdl` produces for it is the rendering of its column rows in
strictly ascending ordinal position — whatever order the column rows
arrived in (their multiset is preserved).  The hypothesis is the catalog
invariant stated by the data model: no two columns of one relation share an
ordinal position. -/
theorem buildSchemaDdl_columns_ascending (data : SchemaData) (r : TableRow)
    (hr : r ∈ data.tables)
    (hnd : ((data.columns.filter fun c =>
        c.table_schema == r.table_schema && c.table_name == r.table_name).map
          (·.ordinal_position)).Nodup) :
    (qualName r.table_schema r.table_name,
        relationDdl (canonicalize data) r) ∈ (buildSchemaDdl data).1 ∧
    List.Pairwise (fun a b => a.ordinal_position < b.ordinal_position)
      (relColumns (canonicalize data) r) ∧
    List.Perm (relColumns (canonicalize data) r)
      (data.columns.filter fun c =>
        c.table_schema == r.table_schema && c.table_name == r.table_name) := by
  have hperm : List.Perm (relColumns (canonicalize data) r)
      (data.columns.filter fun c =>
        c.table_schema == r.table_schema && c.table_name == r.table_name) := by
    simp only [relColumns, canonicalize]
    exact (rowSort_perm columnFullKey data.columns).filter _
  refine ⟨?_, ?_, hperm⟩
  · have hr' : r ∈ (canonicalize data).tables := by
      simp only [canonicalize, mem_rowSort]
      exact hr
    simpa only [buildSchemaDdl] using
      List.mem_map_of_mem
        (fun t => (qualName t.table_schema t.table_name,
          relationDdl (canonicalize data) t)) hr'
  · have hsorted : List.Sorted (keyLe columnFullKey)
        (relColumns (canonicalize data) r) := by
      simp only [relColumns, canonicalize]
      exact (rowSort_sorted columnFullKey data.columns).filter _
    have hle : List.Pairwise
        (fun a b : ColumnRow => a.ordinal_position ≤ b.ordinal_position)
        (relColumns (canonicalize data) r) := by
      refine hsorted.imp_of_mem ?_
      intro a b ha hb hab
      have hpa := (List.mem_filter.mp ha).2
      have hpb := (List.mem_filter.mp hb).2
      simp only [Bool.and_eq_true, beq_iff_eq] at hpa hpb
      unfold keyLe columnFullKey at hab
      rw [hpa.1, hpa.2, hpb.1, hpb.2, Key.le_str_same, Key.le_str_same] at hab
      exact Key.le_nat_head hab
    have hne : List.Pairwise
        (fun a b : ColumnRow => a.ordinal_position ≠ b.ordinal_position)
        (relColumns (canonicalize data) r) := by
      have hnd' : ((relColumns (canonicalize data) r).map
          (·.ordinal_position)).Nodup :=
        ((hperm.map (·.ordinal_position)).nodup_iff).mpr hnd
      exact List.pairwise_map.mp hnd'
    exact (hle.and hne).imp fun h => lt_of_le_of_ne h.1 h.2

/-- C4 witness: the theorem applied to the concrete snapshot `ddlSnapA` and
its relation `public.users`, whose two column rows have ordinals 1 and 2. -/
theorem buildSchemaDdl_columns_ascending_witness :
    (qualName tRowEx.table_schema tRowEx.table_name,
        relationDdl (canonicalize ddlSnapA) tRowEx) ∈ (buildSchemaDdl ddlSnapA).1 ∧
    List.Pairwise (fun a b => a.ordinal_position < b.ordinal_position)
      (relColumns (canonicalize ddlSnapA) tRowEx) ∧
    List.Perm (relColumns (canonicalize ddlSnapA) tRowEx)
      (ddlSnapA.columns.filter fun c =>
        c.table_schema == tRowEx.table_schema &&
        c.table_name == tRowEx.table_name) :=
  buildSchemaDdl_columns_ascending ddlSnapA tRowEx (by decide) (by decide)

/-- C5: every relation of the input snapshot appears in the kind mapping
with exactly one of the two values "table" or "view", and every key of the
DDL mapping has a kind-mapping entry (itself "table" or "view"). -/
theorem buildSchemaDdl_kind_total (data : SchemaData) (r : TableRow)
    (hr : r ∈ data.tables) (k ddlText : String)
    (hk : (k, ddlText) ∈ (buildSchemaDdl data).1) :
    (List.lookup (qualName r.table_schema r.table_name)
        (buildSchemaDdl data).2 = some "table" ∨
     List.lookup (qualName r.table_schema r.table_name)
        (buildSchemaDdl data).2 = some "view") ∧
    (∃ t, List.lookup k (buildSchemaDdl data).2 = some t ∧
      (t = "table" ∨ t = "view")) := by
  have hkind : ∀ y : TableRow, relationKind y = "table" ∨ relationKind y = "view" := by
    intro y
    by_cases hy : (y.table_type == "BASE TABLE") = true
    · exact Or.inl (by simp [relationKind, hy])
    · exact Or.inr (by simp [relationKind, hy])
  constructor
  · have hr' : r ∈ (canonicalize data).tables := by
      simp only [canonicalize, mem_rowSort]; exact hr
    have hmem : qualName r.table_schema r.table_name ∈
        (canonicalize data).tables.map
          (fun t => qualName t.table_schema t.table_name) :=
      List.mem_map_of_mem _ hr'
    obtain ⟨y, -, -, hl⟩ := lookup_map_pair _ relationKind _ _ hmem
    rw [show (buildSchemaDdl data).2 = ((canonicalize data).tables.map fun t =>
      (qualName t.table_schema t.table_name, relationKind t)) from rfl, hl]
    rcases hkind y with h | h
    · exact Or.inl (by rw [h])
    · exact Or.inr (by rw [h])
  · have hkmem : k ∈ (canonicalize data).tables.map
        (fun t => qualName t.table_schema t.table_name) := by
      have hk' : (k, ddlText) ∈ (canonicalize data).tables.map fun t =>
          (qualName t.table_schema t.table_name,
            relationDdl (canonicalize data) t) := hk
      obtain ⟨y, hy, hyeq⟩ := List.mem_map.mp hk'
      have hfst : qualName y.table_schema y.table_name = k :=
        congrArg Prod.fst hyeq
      exact hfst ▸ List.mem_map_of_mem _ hy
    obtain ⟨y, -, -, hl⟩ := lookup_map_pair _ relationKind _ _ hkmem
    refine ⟨relationKind y, ?_, hkind y⟩
    rw [show (buildSchemaDdl data).2 = ((canonicalize data).tables.map fun t =>
      (qualName t.table_schema t.table_name, relationKind t)) from rfl, hl]

/-- C5 witness: the theorem applied to `ddlSnapA`, its relation
`public.users`, and the DDL-mapping entry for `public.orders`. -/
theorem buildSchemaDdl_kind_total_witness :
    (List.lookup (qualName tRowEx.table_schema tRowEx.table_name)
        (buildSchemaDdl ddlSnapA).2 = some "table" ∨
     List.lookup (qualName tRowEx.table_schema tRowEx.table_name)
        (buildSchemaDdl ddlSnapA).2 = some "view") ∧
    (∃ t, List.lookup (qualName "public" "orders")
        (buildSchemaDdl ddlSnapA).2 = some t ∧
      (t = "table" ∨ t = "view")) :=
  buildSchemaDdl_kind_total ddlSnapA tRowEx (by decide)
    (qualName "public" "orders") (relationDdl (canonicalize ddlSnapA) tRowEx2)
    (by decide)

/-- C7: every entry the sync command persists — keyed by qualified relation
name — stores a schema field equal to the portion of the key before the
first separator and a kind field equal to the kind mapping's value for that
key. -/
theorem syncCache_entries_wellformed (data : SchemaData) (key : String)
    (e : TableCacheEntry)
    (h : (key, e) ∈ syncCacheTables (buildSchemaDdl data).1 (buildSchemaDdl data).2) :
    e.schema = some (firstSegment key) ∧
    List.lookup key (buildSchemaDdl data).2 = some e.type := by
  obtain ⟨⟨k', d'⟩, hmem, heq⟩ := List.mem_map.mp h
  obtain ⟨rfl, rfl⟩ : k' = key ∧ entryFor (buildSchemaDdl data).2 k' d' = e := by
    exact ⟨congrArg Prod.fst heq, congrArg Prod.snd heq⟩
  have hkmem : k' ∈ (canonicalize data).tables.map
      (fun t => qualName t.table_schema t.table_name) := by
    have hmem' : (k', d') ∈ (canonicalize data).tables.map fun t =>
        (qualName t.table_schema t.table_name,
          relationDdl (canonicalize data) t) := hmem
    obtain ⟨y, hy, hyeq⟩ := List.mem_map.mp hmem'
    have hfst : qualName y.table_schema y.table_name = k' :=
      congrArg Prod.fst hyeq
    exact hfst ▸ List.mem_map_of_mem _ hy
  obtain ⟨y, -, -, hl⟩ := lookup_map_pair _ relationKind _ _ hkmem
  have hl' : List.lookup k' (buildSchemaDdl data).2 = some (relationKind y) := hl
  exact ⟨rfl, by rw [hl']; simp [entryFor, hl']⟩

/-- C7 witness: the theorem applied to the persisted entry for
`public.orders` of the concrete snapshot `ddlSnapA`. -/
theorem syncCache_entries_wellformed_witness :
    (entryFor (buildSchemaDdl ddlSnapA).2 (qualName "public" "orders")
        (relationDdl (canonicalize ddlSnapA) tRowEx2)).schema =
      some (firstSegment (qualName "public" "orders")) ∧
    List.lookup (qualName "public" "orders") (buildSchemaDdl ddlSnapA).2 =
      some (entryFor (buildSchemaDdl ddlSnapA).2 (qualName "public" "orders")
        (relationDdl (canonicalize ddlSnapA) tRowEx2)).type :=
  syncCache_entries_wellformed ddlSnapA (qualName "public" "orders")
    (entryFor (buildSchemaDdl ddlSnapA).2 (qualName "public" "orders")
      (relationDdl (canonicalize ddlSnapA) tRowEx2))
    (by decide)

/-- C6: when connecting or any catalog query fails, the sync attempt reports
failure with the underlying error message, performs no cache write, and the
previously persisted cache file — whatever its state — is unchanged and
reads back exactly as before. -/
theorem syncFailure_preserves_cache (connectErr : Option String) (c : Client)
    (prev : FileState)
    (h : connectErr ≠ none ∨ ¬ noQueryFailure c) :
    (runSyncSchema connectErr c).1 =
      SyncOutcome.failure (underlyingError connectErr c) ∧
    (runSyncSchema connectErr c).2 = [] ∧
    applySyncWrites prev (runSyncSchema connectErr c).2 = prev ∧
    readSchemaCache (applySyncWrites prev (runSyncSchema connectErr c).2) =
      readSchemaCache prev := by
  cases hc : connectErr with
  | some e =>
    refine ⟨?_, ?_, ?_, ?_⟩ <;>
      simp [runSyncSchema, underlyingError, applySyncWrites]
  | none =>
    rcases h with h | h
    · exact absurd hc h
    · obtain ⟨e, he⟩ := exists_error_of_fail c h
      refine ⟨?_, ?_, ?_, ?_⟩ <;>
        simp [runSyncSchema, underlyingError, he, applySyncWrites]

/-- C6 witness: a concrete attempt whose connection fails: the failure is
reported with the connect error, nothing is written, and an existing parsed
cache file stays untouched and readable. -/
theorem syncFailure_preserves_cache_witness :
    (runSyncSchema (some "connection refused") clientEx).1 =
      SyncOutcome.failure (underlyingError (some "connection refused") clientEx) ∧
    (runSyncSchema (some "connection refused") clientEx).2 = [] ∧
    applySyncWrites (FileState.parsed tablesNullJson)
      (runSyncSchema (some "connection refused") clientEx).2 =
      FileState.parsed tablesNullJson ∧
    readSchemaCache (applySyncWrites (FileState.parsed tablesNullJson)
      (runSyncSchema (some "connection refused") clientEx).2) =
      readSchemaCache (FileState.parsed tablesNullJson) :=
  syncFailure_preserves_cache (some "connection refused") clientEx
    (FileState.parsed tablesNullJson) (Or.inl (by simp))

/-- C9: `isTableExcluded` is total on every input, a regex rule whose
pattern does not compile is skipped — on its own it matches nothing, and
inserting it anywhere in a rule list changes neither `isTableExcluded` nor
`filterTables`. -/
theorem invalid_regex_rules_skipped (eng : RegexEngine) (tableKey : String)
    (r : ExclusionRule) (rules₁ rules₂ : List ExclusionRule)
    (items : List String)
    (ht : r.type = ExclusionRuleType.regex)
    (hv : eng.valid r.pattern = false) :
    isTableExcluded eng tableKey [r] = false ∧
    isTableExcluded eng tableKey (rules₁ ++ r :: rules₂) =
      isTableExcluded eng tableKey (rules₁ ++ rules₂) ∧
    filterTables id eng items (rules₁ ++ r :: rules₂) =
      filterTables id eng items (rules₁ ++ rules₂) := by
  have hm : ruleMatches eng tableKey r = false := by
    simp [ruleMatches, ht, hv]
  have hmAll : ∀ s : String, ruleMatches eng s r = false := by
    intro s; simp [ruleMatches, ht, hv]
  have hskip : ∀ (s : String) (l₁ : List ExclusionRule),
      isTableExcluded eng s (l₁ ++ r :: rules₂) =
        isTableExcluded eng s (l₁ ++ rules₂) := by
    intro s l₁
    induction l₁ with
    | nil => simp [isTableExcluded, hmAll s]
    | cons x xs ih => simp [isTableExcluded, ih]
  refine ⟨by simp [isTableExcluded, hm], hskip tableKey rules₁, ?_⟩
  by_cases hempty : (rules₁ ++ rules₂).isEmpty = true
  · obtain ⟨h₁, h₂⟩ := List.append_eq_nil.mp (List.isEmpty_iff.mp hempty)
    subst h₁; subst h₂
    simp [filterTables, isTableExcluded, hmAll, List.filter_true]
  · have hne : (rules₁ ++ r :: rules₂).isEmpty = false := by
      cases rules₁ <;> simp [List.isEmpty]
    have hne' : (rules₁ ++ rules₂).isEmpty = false := by
      simpa using hempty
    simp only [filterTables, hne, hne', Bool.false_eq_true, if_false]
    exact List.filter_congr fun a _ => by rw [hskip (id a) rules₁]

/-- C9 witness: the theorem applied to an engine that rejects every pattern
and a concrete regex rule: the rule excludes nothing and filtering with it
leaves the item list unchanged. -/
theorem invalid_regex_rules_skipped_witness :
    isTableExcluded ⟨fun _ => false, fun _ _ => true⟩ "public.users"
      [⟨"rule_1", ExclusionRuleType.regex, "("⟩] = false ∧
    isTableExcluded ⟨fun _ => false, fun _ _ => true⟩ "public.users"
      ([] ++ ⟨"rule_1", ExclusionRuleType.regex, "("⟩ :: []) =
      isTableExcluded ⟨fun _ => false, fun _ _ => true⟩ "public.users" ([] ++ []) ∧
    filterTables id ⟨fun _ => false, fun _ _ => true⟩ ["public.users"]
      ([] ++ ⟨"rule_1", ExclusionRuleType.regex, "("⟩ :: []) =
      filterTables id ⟨fun _ => false, fun _ _ => true⟩ ["public.users"] ([] ++ []) :=
  invalid_regex_rules_skipped ⟨fun _ => false, fun _ _ => true⟩ "public.users"
    ⟨"rule_1", ExclusionRuleType.regex, "("⟩ [] [] ["public.users"] rfl rfl

/-- C10 counterexample: the claim says a non-null result implies the parsed
value's `tables` field is an object, but on the file `{"tables": null}` the
code returns the parsed value — `typeof null === "object"` in JavaScript —
although the `tables` field is JSON null, not an object. -/
theorem readSchemaCache_accepts_null_tables :
    readSchemaCache (FileState.parsed tablesNullJson) = some tablesNullJson ∧
    jsonField tablesNullJson "tables" = some Json.null ∧
    isJsonObject Json.null = false :=
  ⟨rfl, rfl, rfl⟩

/-- C10 (amended): `readSchemaCache` is total and returns null on every
failure path — absent file, unreadable file, malformed JSON — and on parsed
values that are falsy or whose `tables` field is missing or has a
JavaScript `typeof` other than "object"; it returns the parsed value
exactly when the value is truthy and its `tables` field has `typeof`
"object", which admits JSON objects, arrays and null alike. -/
theorem readSchemaCache_characterization (fs : FileState) (v : Json) :
    (readSchemaCache FileState.absent = none ∧
     readSchemaCache FileState.unreadable = none ∧
     readSchemaCache FileState.badJson = none) ∧
    (readSchemaCache fs = some v ↔
      (fs = FileState.parsed v ∧ jsFalsy v = false ∧
       ∃ t, jsonField v "tables" = some t ∧ jsTypeof t = "object")) := by
  refine ⟨⟨rfl, rfl, rfl⟩, ?_⟩
  constructor
  · intro h
    cases fs with
    | absent => cases h
    | unreadable => cases h
    | badJson => cases h
    | parsed w =>
      simp only [readSchemaCache] at h
      by_cases hf : jsFalsy w = true
      · rw [if_pos hf] at h; cases h
      · rw [if_neg hf] at h
        cases hfield : jsonField w "tables" with
        | none =>
          rw [hfield] at h
          exact absurd h (by exact fun hx => Option.noConfusion hx)
        | some t =>
          rw [hfield] at h
          change (if (jsTypeof t == "object") = true then some w else none) =
            some v at h
          by_cases hto : (jsTypeof t == "object") = true
          · rw [if_pos hto] at h
            obtain rfl : w = v := Option.some.inj h
            exact ⟨rfl, Bool.not_eq_true _ ▸ hf, t, hfield, beq_iff_eq.mp hto⟩
          · rw [if_neg hto] at h; cases h
  · rintro ⟨rfl, hf, t, hfield, hto⟩
    simp only [readSchemaCache]
    rw [if_neg (by simp [hf]), hfield]
    change (if (jsTypeof t == "object") = true then some v else none) = some v
    rw [if_pos (by simp [hto])]

end DbSchemaExplorer
